import Mathlib

/-!
Verification of the replanning_strategies repository (DynamicRRTStar replanner,
ReplannerManagerDRRTStar and ReplannerManagerMARSHA managers) against its
natural-language specification.

The embedding is shallow: the orchestration code of the repository is
translated into executable Lean definitions.  The external graph_core
primitives (tree, path, sampler, checker, metrics) are modelled from the
data model of the specification (spec sections 3 and 4.2): nodes are natural
numbers, a configuration is an integer (the joint-space geometry of the
claims is dimension-invariant: only distances and comparisons matter), an
edge cost is an integer extended with infinity (WithTop, infinity encodes an
obstructed edge), a tree is a root plus a list of directed costed
connections plus a configuration table; wall-clock instants are rationals.
Nondeterministic external calls (the sampler, rewireWithPathCheck, the wall
clock, the collision checker, the metric) are supplied as oracle inputs, so
every definition is executable on concrete data.
-/

namespace ReplanningStrategies

/-- Edge cost: a number, or infinity for an obstructed edge (spec section 3). -/
abbrev Cost := WithTop ℤ

/-- A directed connection of the search tree (parent to child) carrying a
mutable cost; infinity denotes an obstructed edge. -/
structure Conn where
  parent : ℕ
  child : ℕ
  cost : Cost
deriving DecidableEq, Repr

/-- A path: the ordered sequence of connections of the executing or replanned
path (spec section 3). -/
structure DPath where
  conns : List Conn
deriving DecidableEq, Repr

/-- A search tree: a root, the directed connections, and the configuration of
each node (modelled external graph_core primitive, spec section 3). -/
structure Tree where
  root : ℕ
  conns : List Conn
  cfgs : List (ℕ × ℤ)
deriving DecidableEq, Repr

/-- Configuration of a node of a tree (0 by convention for unknown nodes). -/
def cfgOf (t : Tree) (n : ℕ) : ℤ :=
  ((t.cfgs.find? (fun kv => kv.1 == n)).map (fun kv => kv.2)).getD 0

/-- The parent connections of a node (those whose child is the node). -/
def parentConns (t : Tree) (n : ℕ) : List Conn :=
  t.conns.filter (fun c => c.child == n)

/-- The child connections of a node (those whose parent is the node). -/
def childConns (t : Tree) (n : ℕ) : List Conn :=
  t.conns.filter (fun c => c.parent == n)

/-- The nodes of a tree: the root and every endpoint of a connection. -/
def treeNodes (t : Tree) : List ℕ :=
  t.root :: t.conns.foldr (fun c acc => c.parent :: c.child :: acc) []

/-- Membership test of a node in a tree (modelled external Tree::isInTree). -/
def isInTree (t : Tree) (n : ℕ) : Bool :=
  treeNodes t |>.contains n

/-- The chain of connections from a node up to the root, following parent
connections (first element is the connection into the node).  Fuel-bounded
recursion; returns none when the root is unreachable. -/
def chainToRoot (t : Tree) : ℕ → ℕ → Option (List Conn)
  | 0, _ => none
  | fuel + 1, n =>
    if n = t.root then some []
    else
      match t.conns.find? (fun c => c.child == n) with
      | none => none
      | some c => (chainToRoot t fuel c.parent).map (fun l => c :: l)

/-- Reroot the tree at a node: the connections on the chain from the node to
the old root are reversed, costs preserved (modelled external
Tree::changeRoot, spec section 3).  Returns none when the node does not reach
the root. -/
def changeRoot (t : Tree) (n : ℕ) : Option Tree :=
  (chainToRoot t (t.conns.length + 1) n).map (fun chain =>
    { t with
      root := n
      conns := t.conns.map (fun c =>
        if c ∈ chain then { parent := c.child, child := c.parent, cost := c.cost } else c) })

/-- Cost of the chain from the root to a node: the sum of the parent-chain
costs; infinity when the node does not reach the root (modelled external
Tree::costToNode). -/
def costToNode (t : Tree) (n : ℕ) : Cost :=
  match chainToRoot t (t.conns.length + 1) n with
  | none => ⊤
  | some l => (l.map (fun c => c.cost)).foldr (fun a b => a + b) (0 : Cost)

/-- The ordered connections from the root down to a node (modelled external
Tree::getConnectionToNode). -/
def getConnectionToNode (t : Tree) (n : ℕ) : Option (List Conn) :=
  (chainToRoot t (t.conns.length + 1) n).map List.reverse

/-- Append a connection to the tree (Connection::add). -/
def addConn (t : Tree) (c : Conn) : Tree :=
  { t with conns := t.conns ++ [c] }

/-- Detach every parent connection of a node, translating
parent_connections_.front()->remove() followed by parent_connections_.clear()
under the one-parent invariant of the spec. -/
def removeParentConns (t : Tree) (n : ℕ) : Tree :=
  { t with conns := t.conns.filter (fun c => !(c.child == n)) }

/-!
DynamicRRTStar::nodeBehindObs (DRRT.h, first DRRTStar.cpp part, lines 75-94).
The C++ loop scans the connection indices of the current path from the last
one down to 0 and stops at the first (hence highest) index whose cost is
infinite; the replanning goal is the child of the connection at index i+1
when i is not the last index, and the child of connection i otherwise.
-/

/-- The descending scan of nodeBehindObs: nodeBehindObsLoop conns (i+1)
examines index i first.  Faithful to the C++ for loop. -/
def nodeBehindObsLoop (conns : List Conn) : ℕ → Option ℕ
  | 0 => none
  | i + 1 =>
    match conns[i]? with
    | some c =>
      if c.cost = ⊤ then
        some (if i + 1 < conns.length then ((conns[i + 1]?).getD c).child else c.child)
      else nodeBehindObsLoop conns i
    | none => nodeBehindObsLoop conns i

/-- DynamicRRTStar::nodeBehindObs on the connection list of the current path:
returns the replanning goal, or none when no connection is obstructed. -/
def nodeBehindObs (conns : List Conn) : Option ℕ :=
  nodeBehindObsLoop conns conns.length

/-- The claim-side definition, following the words of the specification:
the child of the last obstructed connection itself (the first node beyond the
obstruction). -/
def childOfLastObstructed (conns : List Conn) : Option ℕ :=
  ((List.range conns.length).foldl
    (fun acc i => if (conns[i]?).any (fun c => c.cost == ⊤) then some i else acc) none).bind
    (fun i => (conns[i]?).map (fun c => c.child))

/-!
Modelled external path primitives (graph_core), following the data model of
spec section 3: a configuration lies on a connection when it is between the
configurations of its endpoints; the cost from a configuration is the cost
of the enclosing connection plus the cost of all later connections (the
claims only depend on whether some connection ahead is obstructed, so the
traversed part of the enclosing connection is not subtracted); splitting a
connection at a configuration inserts a fresh node there, both halves
inheriting the connection's cost, so an obstructed connection splits into
two obstructed halves.
-/

/-- Modelled external Path::findConnection: the first connection of the path
whose endpoint configurations bracket the given configuration, with its
index. -/
def findConnection (t : Tree) (p : DPath) (conf : ℤ) : Option (ℕ × Conn) :=
  (List.range p.conns.length).findSome? (fun i =>
    match p.conns[i]? with
    | none => none
    | some c =>
      let a := cfgOf t c.parent
      let b := cfgOf t c.child
      if min a b ≤ conf ∧ conf ≤ max a b then some (i, c) else none)

/-- Modelled external Path::getCostFromConf: remaining cost of the path from
the given configuration to the end; infinity when some connection ahead is
obstructed (spec section 3: a path with an infinite-cost edge is
obstructed). -/
def getCostFromConf (t : Tree) (p : DPath) (conf : ℤ) : Cost :=
  match findConnection t p conf with
  | none => ⊤
  | some (i, c) =>
    c.cost + ((p.conns.drop (i + 1)).map (fun d => d.cost)).foldr (fun a b => a + b) (0 : Cost)

/-- Modelled external Path::addNodeAtCurrentConfig with path rewiring: split
the connection at index i of the path at the given configuration, inserting
the fresh node nr there, updating tree and path (spec section 4.3 step 1 and
section 8 item 6). -/
def splitConnAt (t : Tree) (p : DPath) (i : ℕ) (c : Conn) (conf : ℤ) (nr : ℕ) :
    Tree × DPath :=
  let c1 : Conn := { parent := c.parent, child := nr, cost := c.cost }
  let c2 : Conn := { parent := nr, child := c.child, cost := c.cost }
  ({ t with
      conns := (t.conns.filter (fun d => decide (d ≠ c))) ++ [c1, c2]
      cfgs := (nr, conf) :: t.cfgs },
   { conns := p.conns.take i ++ [c1, c2] ++ p.conns.drop (i + 1) })

/-- Replace the adjacent pair cp, cc of a connection list by the merged
connection m. -/
def replacePair : List Conn → Conn → Conn → Conn → List Conn
  | [], _, _, _ => []
  | [c], _, _, _ => [c]
  | c :: c2 :: rest, cp, cc, m =>
    if c = cp ∧ c2 = cc then m :: rest else c :: replacePair (c2 :: rest) cp cc m

/-- Modelled external Path::removeNode: the node is removed when it is
unreferenced, that is when exactly one parent connection and one child
connection touch it (spec section 4.3 step 9: remove node_replan when it is
unreferenced); the two connections are merged into a direct one.  Returns
none when the node cannot be removed. -/
def removeNodeFromPath (t : Tree) (p : DPath) (n : ℕ) : Option (Tree × DPath) :=
  match parentConns t n, childConns t n with
  | [cp], [cc] =>
    if cp.parent = n ∨ cc.child = n then none
    else
      let merged : Conn := { parent := cp.parent, child := cc.child, cost := cp.cost + cc.cost }
      some
        ({ t with
            conns := (t.conns.filter (fun d => decide (d ≠ cp) && decide (d ≠ cc))) ++ [merged]
            cfgs := t.cfgs.filter (fun kv => decide (kv.1 ≠ n)) },
         { conns := replacePair p.conns cp cc merged })
  | _, _ => none

/-!
DynamicRRTStar::rewireBehindObs (DRRT.h, first DRRTStar.cpp part, lines
96-212) and DynamicRRTStar::replan (lines 352-419).  The wall clock, the
sampler and the external subtree rewire operation are oracles: each loop
iteration consumes one event carrying the result of
Subtree::rewireWithPathCheck (the fresh node and the tree after the external
rewire, or none) and the elapsed-time measurement taken at the end of the
iteration body.
-/

/-- Oracle environment of a DynamicRRTStar run: the collision checker, the
metric, the result of the phase A rewireOnlyWithPathCheck pass, the solver
step limit (Tree::getMaximumDistance), the time budget max_time_ of the
replanner and the first elapsed-time measurement of rewireBehindObs. -/
structure Env where
  checkPath : ℤ → ℤ → Bool
  mcost : ℤ → ℤ → ℤ
  phaseA : Tree → Tree
  maxDistance : ℤ
  maxTime : ℚ
  t0 : ℚ

/-- One oracle event of the phase B loop: the result of the external
subtree rewire for the sampled configuration (fresh node and updated tree)
and the elapsed time measured at the end of the iteration body. -/
structure BEvent where
  rewired : Option (ℕ × Tree)
  tNext : ℚ
deriving DecidableEq

/-- State threaded through the phase B loop of rewireBehindObs. -/
structure BState where
  tree : Tree
  cost2goal : Cost
  success : Bool
  t : ℚ
deriving DecidableEq

/-- One iteration body of the phase B loop (DRRT.h lines 142-180): on a
successful external rewire, connect the fresh node to the replanning goal
when it is within maxDistance, the estimated total cost improves and the
direct edge passes the checker; the goal's old parent connections are
removed before the new connection is added.  A fresh node beyond maxDistance
takes the continue path, which skips the elapsed-time update. -/
def phaseBStep (env : Env) (goalB : ℕ) (st : BState) (ev : BEvent) : BState :=
  match ev.rewired with
  | none => { st with t := ev.tNext }
  | some (nn, tR) =>
    let d := |cfgOf tR nn - cfgOf tR goalB|
    if d > env.maxDistance then { st with tree := tR }
    else
      let c2n := costToNode tR nn
      if c2n + (d : Cost) < st.cost2goal then
        if env.checkPath (cfgOf tR nn) (cfgOf tR goalB) then
          let cleared := removeParentConns tR goalB
          let c := env.mcost (cfgOf tR nn) (cfgOf tR goalB)
          let conn : Conn := { parent := nn, child := goalB, cost := (c : Cost) }
          { tree := addConn cleared conn
            cost2goal := (c : Cost) + c2n
            success := true
            t := ev.tNext }
        else { st with tree := tR, t := ev.tNext }
      else { st with tree := tR, t := ev.tNext }

/-- The phase B loop (DRRT.h lines 138-181): the deadline guard is evaluated
at the top of every iteration against the limit the code computes, and the
returned list records the elapsed-time value read at the top of each
executed iteration. -/
def phaseBLoop (env : Env) (goalB : ℕ) (limit : ℚ) :
    BState → List BEvent → BState × List ℚ
  | st, [] => (st, [])
  | st, ev :: evs =>
    if st.t < limit then
      let r := phaseBLoop env goalB limit (phaseBStep env goalB st ev) evs
      (r.1, st.t :: r.2)
    else (st, [])

/-- Replanner state of DynamicRRTStar: the current path, the replanned path,
the shared tree, the goal node of the current path, the current
configuration, the next fresh node identifier and the success_ flag. -/
structure RState where
  path : DPath
  replanned : DPath
  tree : Tree
  goal : ℕ
  conf : ℤ
  freshId : ℕ
  success : Bool
deriving DecidableEq

/-- DynamicRRTStar::rewireBehindObs (DRRT.h lines 96-212): reset success_,
check the start node is in the tree, locate the replanning goal behind the
obstruction, reroot at the start node, run the phase A rewire pass and the
phase B anytime loop; on success extract the root-to-goal connections as the
replanned path and restore the original root. -/
def rewireBehindObs (env : Env) (st : RState) (node : ℕ) (evs : List BEvent) : RState :=
  let st0 := { st with success := false }
  if isInTree st0.tree node = false then st0
  else
    match nodeBehindObs st0.path.conns with
    | none => st0
    | some replanGoal =>
      let root := st0.tree.root
      let tree1 := (changeRoot st0.tree node).getD st0.tree
      let tree2 := env.phaseA tree1
      let maxTime := (98 : ℚ) / 100 * env.maxTime
      let bfin := (phaseBLoop env replanGoal ((98 : ℚ) / 100 * maxTime)
        { tree := tree2, cost2goal := ⊤, success := false, t := env.t0 } evs).1
      if bfin.success then
        let newConns := (getConnectionToNode bfin.tree st0.goal).getD []
        let tree3 := (changeRoot bfin.tree root).getD bfin.tree
        { st0 with tree := tree3, replanned := { conns := newConns }, success := true }
      else { st0 with tree := bfin.tree, success := false }

/-- The state right after replan has split the current connection at the
current configuration, inserting the fresh node (DRRT.h lines 359-368). -/
def replanSplitState (st : RState) (i : ℕ) (conn : Conn) : RState :=
  let sp := splitConnAt st.tree st.path i conn st.conf st.freshId
  { st with
    success := false
    tree := sp.1
    path := sp.2
    freshId := st.freshId + 1 }

/-- The replanner state reached by replan after the split and the
rewireBehindObs call, given the located connection (used to state the
failure rollback of replan). -/
def replanStage2 (env : Env) (st : RState) (evs : List BEvent) (i : ℕ) (conn : Conn) : RState :=
  rewireBehindObs env (replanSplitState { st with success := false } i conn) st.freshId evs

/-- DynamicRRTStar::replan (DRRT.h lines 352-419).  When the remaining cost
of the current path is finite the call is a no-op returning false with the
replanned path equal to the current path; otherwise a node is inserted at
the current configuration, rewireBehindObs runs, and on failure the original
root is restored and the inserted node is removed when unreferenced (return
false, path unchanged) or kept (return true).  Unrestorable roots are the
fatal assert of the source, modelled as an error. -/
def replan (env : Env) (st : RState) (evs : List BEvent) : Except String (Bool × RState) :=
  if getCostFromConf st.tree st.path st.conf = ⊤ then
    let root := st.tree.root
    match findConnection st.tree st.path st.conf with
    | none => Except.error "no connection contains the current configuration"
    | some (i, conn) =>
      let nr := st.freshId
      let st2 := replanStage2 env st evs i conn
      if st2.success then Except.ok (true, st2)
      else
        match changeRoot st2.tree root with
        | none => Except.error "root cannot be restored"
        | some t =>
          let st3 := { st2 with tree := t }
          match removeNodeFromPath st3.tree st3.path nr with
          | some tp => Except.ok (false, { st3 with tree := tp.1, path := tp.2 })
          | none => Except.ok (true, st3)
  else
    Except.ok (false, { st with success := false, replanned := st.path })

/-!
ReplannerManagerDRRTStar::startReplannedPathFromNewCurrentConf
(replanner_manager_DRRTStar.cpp lines 15-33).
-/

/-- Manager state for the DRRT star hot swap: the current path of the
replanner, the replanned (executing) path, the tree of the current path
(shared by the replanned path after a DRRT star replan), the goal node and
the next fresh node identifier. -/
structure MState where
  current : DPath
  replanned : DPath
  tree : Tree
  goal : ℕ
  freshId : ℕ
deriving DecidableEq

/-- ReplannerManagerDRRTStar::startReplannedPathFromNewCurrentConf: on the
tree of the current path (no clone), locate the connection of the CURRENT
path containing the configuration, split it inserting a node there, reroot
the tree at that node and set the replanned path's connections to the tree's
root-to-goal chain. -/
def startReplannedPathFromNewCurrentConf (m : MState) (conf : ℤ) : Except String MState :=
  match findConnection m.tree m.current conf with
  | none => Except.error "no connection contains the configuration"
  | some (i, conn) =>
    let nr := m.freshId
    let sp := splitConnAt m.tree m.current i conn conf nr
    let t2 := (changeRoot sp.1 nr).getD sp.1
    let newConns := (getConnectionToNode t2 m.goal).getD []
    Except.ok
      { m with
        current := sp.2
        tree := t2
        replanned := { conns := newConns }
        freshId := m.freshId + 1 }

/-- Modelled from the spec: the hot-swap protocol of spec section 4.5 —
clone the replanned tree, locate the edge on the REPLANNED path that
contains the configuration, split it inserting a node there, reroot the
clone at that node, and replace the executing path's edges with the clone's
path to the goal; the current path and the original tree are untouched
(the clone is returned separately). -/
def hotSwapSpec (m : MState) (conf : ℤ) : Except String (MState × Tree) :=
  match findConnection m.tree m.replanned conf with
  | none => Except.error "no connection contains the configuration"
  | some (i, conn) =>
    let nr := m.freshId
    let sp := splitConnAt m.tree m.replanned i conn conf nr
    let t2 := (changeRoot sp.1 nr).getD sp.1
    let newConns := (getConnectionToNode t2 m.goal).getD []
    Except.ok
      ({ m with replanned := { conns := newConns }, freshId := m.freshId + 1 }, t2)

/-- A connection list forms a chain from node a to node b: the first
connection starts at a, consecutive connections share endpoints, the last
one ends at b. -/
def isChain : List Conn → ℕ → ℕ → Bool
  | [], a, b => a == b
  | c :: rest, a, b => (c.parent == a) && isChain rest c.child b

/-!
ReplannerManagerMARSHA (replanner_manager_MARSHA.cpp).
-/

/-- A collision object of the planning scene world: its identifier and the
position of its pose. -/
structure CObj where
  id : String
  px : ℚ
  py : ℚ
  pz : ℚ
deriving DecidableEq

/-- Position of a collision object as a column of the obstacle matrix. -/
def CObj.pos (o : CObj) : ℚ × ℚ × ℚ := (o.px, o.py, o.pz)

/-- ReplannerManagerMARSHA::updateObstaclesPositions (lines 67-84): scan the
world's collision objects in order and append the position of each object
whose identifier is not found in the unaware-obstacles list (the C++ test
is std find returning an iterator not below end, translated as findIdx
reaching the list length). -/
def updateObstaclesPositions (world : List CObj) (unaware : List String) : List (ℚ × ℚ × ℚ) :=
  world.foldl
    (fun acc obj =>
      if unaware.length ≤ unaware.findIdx (fun s => s == obj.id) then acc ++ [obj.pos]
      else acc)
    []

/-- The scene-update step of the MARSHA collision-check cycle (lines
149-163): the collision checkers receive the full planning-scene world while
the SSM estimators receive only the positions of the aware obstacles. -/
structure SceneState where
  checkerScene : List CObj
  ssmPositions : List (ℚ × ℚ × ℚ)
deriving DecidableEq

/-- Scene update of one collision-check cycle: commit the whole world to the
checkers and the filtered positions to the SSM. -/
def sceneUpdateStep (world : List CObj) (unaware : List String) : SceneState :=
  { checkerScene := world, ssmPositions := updateObstaclesPositions world unaware }

/-- The MARSHA manager fields read by initReplanner: the human-aware metrics
handle (none models a null pointer), the replanning period dt_replan, the
configured full_net_search flag and the reverse-start-nodes flag. -/
structure MarshaManager where
  haMetrics : Option ℕ
  dtReplan : ℚ
  fullNetSearch : Bool
  reverseStartNodes : Bool
deriving DecidableEq

/-- The MARSHA replanner as constructed by initReplanner. -/
structure MarshaReplanner where
  deadline : ℚ
  metrics : ℕ
  fullNetSearch : Bool
  reverseStartNodes : Bool
deriving DecidableEq

/-- ReplannerManagerMARSHA::initReplanner (lines 44-65): throw when the
human-aware metrics handle is null; otherwise construct the replanner with
deadline 0.9 times dt_replan, warn when full_net_search was configured, and
force full_net_search off on both the manager and the replanner.  Returns
the updated manager, the replanner and the emitted warnings. -/
def initReplanner (m : MarshaManager) :
    Except String (MarshaManager × MarshaReplanner × List String) :=
  match m.haMetrics with
  | none => Except.error "HA metrics not defined!"
  | some h =>
    let timeForRepl := (9 : ℚ) / 10 * m.dtReplan
    let warns := if m.fullNetSearch then ["full net search not available for MARSHA"] else []
    Except.ok
      ({ m with fullNetSearch := false },
       { deadline := timeForRepl
         metrics := h
         fullNetSearch := false
         reverseStartNodes := m.reverseStartNodes },
       warns)

/-!
ReplannerManagerMARSHA::collisionCheckThread (lines 86-255), modelled at the
granularity of the claims: each cycle consumes one oracle input carrying the
planning-scene service response (none models a failed call), the outcome of
the goal-proximity test and the path costs computed by the collision-check
tasks.
-/

/-- Oracle input of one collision-check cycle. -/
structure CCInput where
  svc : Option (List CObj)
  nearGoal : Bool
  newCosts : List Cost
deriving DecidableEq

/-- Observable state of the collision-check thread: the global stop flag,
the scene committed to the thread-local checkers and SSM, the planning-scene
message published under the scene mutex, the shared obstacle positions and
the written-back path costs. -/
structure CCState where
  stop : Bool
  scene : SceneState
  publishedScene : Option (List CObj)
  obstaclePositions : List (ℚ × ℚ × ℚ)
  pathCosts : List Cost
deriving DecidableEq

/-- One cycle of the MARSHA collision-check loop body (lines 135-252): a
failed planning-scene service call sets the stop flag and breaks out at once
with no scene commit and no cost write-back; otherwise the scene is
committed, the goal test may stop the loop, and finally the path costs, the
published scene and the obstacle positions are written under the scene
mutex.  The returned flag tells whether the loop continues. -/
def ccCycle (unaware : List String) (st : CCState) (inp : CCInput) : CCState × Bool :=
  match inp.svc with
  | none => ({ st with stop := true }, false)
  | some world =>
    let st1 := { st with scene := sceneUpdateStep world unaware }
    if inp.nearGoal then ({ st1 with stop := true }, false)
    else
      ({ st1 with
          publishedScene := some world
          obstaclePositions := (sceneUpdateStep world unaware).ssmPositions
          pathCosts := inp.newCosts },
       true)

/-- The MARSHA collision-check loop: the stop flag is checked at the head of
every cycle. -/
def ccLoop (unaware : List String) : CCState → List CCInput → CCState
  | st, [] => st
  | st, inp :: rest =>
    if st.stop then st
    else
      let r := ccCycle unaware st inp
      if r.2 then ccLoop unaware r.1 rest else r.1

/-- The acceptance condition of a phase B iteration (DRRT.h lines 152-160):
the fresh node is within maxDistance of the replanning goal, the estimated
total cost through it improves on the best cost-to-goal found so far, and
the direct edge to the goal passes the collision checker. -/
def phaseBAccepts (env : Env) (goalB nn : ℕ) (tR : Tree) (c2g : Cost) : Prop :=
  |cfgOf tR nn - cfgOf tR goalB| ≤ env.maxDistance
  ∧ costToNode tR nn + ((|cfgOf tR nn - cfgOf tR goalB| : ℤ) : Cost) < c2g
  ∧ env.checkPath (cfgOf tR nn) (cfgOf tR goalB) = true

instance (env : Env) (goalB nn : ℕ) (tR : Tree) (c2g : Cost) :
    Decidable (phaseBAccepts env goalB nn tR c2g) := by
  unfold phaseBAccepts; infer_instance

/-- The connection added from the fresh node to the replanning goal when a
phase B iteration accepts, with the metric cost (DRRT.h lines 168-171). -/
def phaseBNewConn (env : Env) (goalB nn : ℕ) (tR : Tree) : Conn :=
  { parent := nn
    child := goalB
    cost := ((env.mcost (cfgOf tR nn) (cfgOf tR goalB) : ℤ) : Cost) }

/-- Two-connection path whose first (and last obstructed) connection is the
edge from node 0 to node 1; the code places the replanning goal at node 2. -/
def c1CounterPath : List Conn :=
  [{ parent := 0, child := 1, cost := ⊤ }, { parent := 1, child := 2, cost := ((5 : ℤ) : Cost) }]

/-- Path whose only obstructed connection is the last one. -/
def c1WitnessPath : List Conn :=
  [{ parent := 0, child := 1, cost := ((5 : ℤ) : Cost) }, { parent := 1, child := 2, cost := ⊤ }]

/-!
Concrete instances used by the witnesses and counterexamples below.
-/

/-- An oracle environment with a permissive checker, the euclidean metric,
an identity phase A pass, unit step limit and unit time budget. -/
def exEnv : Env :=
  { checkPath := fun _ _ => true
    mcost := fun a b => |a - b|
    phaseA := id
    maxDistance := 1
    maxTime := 1
    t0 := 0 }

/-- The oracle environment with a zero time budget. -/
def exEnvZero : Env :=
  { checkPath := fun _ _ => true
    mcost := fun a b => |a - b|
    phaseA := id
    maxDistance := 1
    maxTime := 0
    t0 := 0 }

/-- An empty tree rooted at node 0. -/
def exTrivTree : Tree := { root := 0, conns := [], cfgs := [] }

/-- Initial phase B state over the empty tree. -/
def exB4 : BState := { tree := exTrivTree, cost2goal := ⊤, success := false, t := 0 }

/-- A tree where the fresh node 3 (configuration one half) hangs off the
root and the replanning goal 2 (configuration one) still has its old parent
connection from node 1. -/
def exTR5 : Tree :=
  { root := 0
    conns := [{ parent := 0, child := 3, cost := ((1 : ℤ) : Cost) },
              { parent := 1, child := 2, cost := ((5 : ℤ) : Cost) }]
    cfgs := [(0, 0), (3, 1), (2, 2), (1, 4)] }

/-- Phase B state over exTR5 with no cost-to-goal found yet. -/
def exB5 : BState := { tree := exTR5, cost2goal := ⊤, success := false, t := 0 }

/-- Replanner state with a single valid connection and the current
configuration in its interior. -/
def exSt6 : RState :=
  { path := { conns := [{ parent := 0, child := 1, cost := ((1 : ℤ) : Cost) }] }
    replanned := { conns := [{ parent := 0, child := 1, cost := ((1 : ℤ) : Cost) }] }
    tree := { root := 0
              conns := [{ parent := 0, child := 1, cost := ((1 : ℤ) : Cost) }]
              cfgs := [(0, 0), (1, 2)] }
    goal := 1
    conf := 1
    freshId := 2
    success := false }

/-- Replanner state whose single connection is obstructed. -/
def exSt2 : RState :=
  { path := { conns := [{ parent := 0, child := 1, cost := ⊤ }] }
    replanned := { conns := [{ parent := 0, child := 1, cost := ⊤ }] }
    tree := { root := 0
              conns := [{ parent := 0, child := 1, cost := ⊤ }]
              cfgs := [(0, 0), (1, 2)] }
    goal := 1
    conf := 1
    freshId := 2
    success := false }

/-- Manager tree: the goal 2 is reached through node 3, while the branch to
node 1 (part of the current path) is a sibling. -/
def exTree3 : Tree :=
  { root := 0
    conns := [{ parent := 0, child := 1, cost := ((1 : ℤ) : Cost) },
              { parent := 0, child := 3, cost := ((1 : ℤ) : Cost) },
              { parent := 3, child := 2, cost := ((1 : ℤ) : Cost) }]
    cfgs := [(0, 0), (1, 4), (2, 8), (3, 2)] }

/-- Manager state whose current and replanned paths differ: the
configuration three quarters lies on the first current connection but on the
second replanned connection. -/
def exM3 : MState :=
  { current := { conns := [{ parent := 0, child := 1, cost := ((1 : ℤ) : Cost) },
                           { parent := 1, child := 2, cost := ((1 : ℤ) : Cost) }] }
    replanned := { conns := [{ parent := 0, child := 3, cost := ((1 : ℤ) : Cost) },
                             { parent := 3, child := 2, cost := ((1 : ℤ) : Cost) }] }
    tree := exTree3
    goal := 2
    freshId := 4 }

/-- MARSHA manager with a non-null metrics handle and full net search
requested. -/
def exM8 : MarshaManager :=
  { haMetrics := some 7, dtReplan := 2, fullNetSearch := true, reverseStartNodes := false }

/-- MARSHA manager with a null metrics handle. -/
def exM10 : MarshaManager :=
  { haMetrics := none, dtReplan := 1, fullNetSearch := false, reverseStartNodes := false }

/-!
Theorems.  First the helper lemmas about the descending scan of
nodeBehindObs, then the claim theorems with their witnesses and
counterexamples.
-/

/-- If some index below the bound is obstructed, the scan succeeds. -/
theorem nodeBehindObsLoop_isSome (conns : List Conn) :
    ∀ k, ∀ j, j < k → ∀ c, conns[j]? = some c → c.cost = ⊤ →
      (nodeBehindObsLoop conns k).isSome := by
  intro k
  induction k with
  | zero => intro j hj; omega
  | succ i ih =>
    intro j hj c hc hcost
    by_cases hji : j = i
    · subst hji
      simp only [nodeBehindObsLoop, hc, hcost, if_pos rfl]
      simp
    · have hj' : j < i := by omega
      simp only [nodeBehindObsLoop]
      cases hci : conns[i]? with
      | none => exact ih j hj' c hc hcost
      | some ci =>
        by_cases hobs : ci.cost = ⊤
        · simp [hobs]
        · simp only [if_neg hobs]
          exact ih j hj' c hc hcost

/-- Scanning down from k to i+1 skips clean indices. -/
theorem nodeBehindObsLoop_skip (conns : List Conn) (i : ℕ) :
    ∀ k, i + 1 ≤ k →
      (∀ j, i < j → j < k → ∀ c, conns[j]? = some c → c.cost ≠ ⊤) →
      nodeBehindObsLoop conns k = nodeBehindObsLoop conns (i + 1) := by
  intro k
  induction k with
  | zero => omega
  | succ m ih =>
    intro hk hclean
    by_cases hmi : m = i
    · subst hmi; rfl
    · have hmi' : i + 1 ≤ m := by omega
      have step : nodeBehindObsLoop conns (m + 1) = nodeBehindObsLoop conns m := by
        simp only [nodeBehindObsLoop]
        cases hcm : conns[m]? with
        | none => rfl
        | some cm =>
          have : cm.cost ≠ ⊤ := hclean m (by omega) (by omega) cm hcm
          simp [this]
      rw [step]
      exact ih hmi' (fun j h1 h2 c hc => hclean j h1 (by omega) c hc)

/-- C1 counterexample: on a path whose only obstructed edge is the first of
two connections, nodeBehindObs returns node 2 (the child of the following
connection) while the child of the last obstructed edge is node 1, so the
claim as stated fails. -/
theorem nodeBehindObs_differs_from_child_of_last_obstructed :
    nodeBehindObs c1CounterPath = some 2
    ∧ childOfLastObstructed c1CounterPath = some 1
    ∧ nodeBehindObs c1CounterPath ≠ childOfLastObstructed c1CounterPath := by
  refine ⟨by decide, by decide, by decide⟩

/-- C1 (amended): for every current path with at least one obstructed
connection nodeBehindObs succeeds, and whenever index i is the last
obstructed connection the replanning goal is the child of the connection at
index i+1 when i is not the final index, and the child of connection i
itself when the obstruction is the final connection of the path. -/
theorem drrtStar_nodeBehindObs_last_obstruction (conns : List Conn) :
    ((∃ c ∈ conns, c.cost = ⊤) → (nodeBehindObs conns).isSome)
    ∧ (∀ i, (h : i < conns.length) → conns[i].cost = ⊤ →
        (∀ j, (hj : j < conns.length) → i < j → conns[j].cost ≠ ⊤) →
        nodeBehindObs conns =
          some (if h2 : i + 1 < conns.length then conns[i + 1].child else conns[i].child)) := by
  constructor
  · rintro ⟨c, hc, hcost⟩
    obtain ⟨n, hn, hget⟩ := List.mem_iff_getElem.mp hc
    exact nodeBehindObsLoop_isSome conns conns.length n hn c
      (by simp [List.getElem?_eq_getElem, hn, hget]) hcost
  · intro i h hcost hclean
    have hskip : nodeBehindObs conns = nodeBehindObsLoop conns (i + 1) := by
      unfold nodeBehindObs
      exact nodeBehindObsLoop_skip conns i conns.length (by omega)
        (fun j h1 h2 c hc => by
          have hj : j < conns.length := h2
          have := hclean j hj h1
          rw [List.getElem?_eq_getElem hj] at hc
          cases hc
          exact this)
    rw [hskip]
    simp only [nodeBehindObsLoop, List.getElem?_eq_getElem h, hcost, if_pos rfl]
    by_cases h2 : i + 1 < conns.length
    · simp [List.getElem?_eq_getElem h2, h2]
    · simp [h2]

/-- Witness for the amended C1: on a path whose only obstructed connection is
the last one, the replanning goal equals that connection's own child. -/
theorem drrtStar_nodeBehindObs_last_obstruction_witness :
    nodeBehindObs c1WitnessPath = some 2 := by
  have h := (drrtStar_nodeBehindObs_last_obstruction c1WitnessPath).2 1 (by decide)
    (by decide) (fun j hj hij => by
      have : j < 2 := by simpa [c1WitnessPath] using hj
      omega)
  simpa [c1WitnessPath] using h

/-- C6: for every current configuration from which the remaining cost of
the current path is finite, DynamicRRTStar replan returns false immediately
with success_ false, the replanned path equal to the current path, and the
tree unchanged. -/
theorem drrtStar_replan_no_obstruction (env : Env) (st : RState) (evs : List BEvent)
    (h : getCostFromConf st.tree st.path st.conf ≠ ⊤) :
    replan env st evs
      = Except.ok (false, { st with success := false, replanned := st.path }) := by
  unfold replan
  simp [h]

/-- Witness for C6: on a state whose single connection is valid, replan is
the identity no-op returning false. -/
theorem drrtStar_replan_no_obstruction_witness :
    replan exEnv exSt6 []
      = Except.ok (false, { exSt6 with success := false, replanned := exSt6.path }) :=
  drrtStar_replan_no_obstruction exEnv exSt6 [] (by decide)

/-- C4: the phase B loop of rewireBehindObs, run with the limit the code
computes (0.98 times its precomputed 0.98 max_time_), starts an iteration
only while the elapsed time read at the top of the iteration is strictly
below 0.98 times max_time_, and when the guard fails at the top no event is
consumed. -/
theorem drrtStar_phaseB_deadline (env : Env) (goalB : ℕ) (st : BState)
    (evs : List BEvent) (hM : 0 ≤ env.maxTime) :
    (∀ t ∈ (phaseBLoop env goalB ((98 : ℚ) / 100 * ((98 : ℚ) / 100 * env.maxTime)) st evs).2,
        t < (98 : ℚ) / 100 * env.maxTime)
    ∧ (¬ st.t < (98 : ℚ) / 100 * ((98 : ℚ) / 100 * env.maxTime) →
        phaseBLoop env goalB ((98 : ℚ) / 100 * ((98 : ℚ) / 100 * env.maxTime)) st evs
          = (st, [])) := by
  have hbound : (98 : ℚ) / 100 * ((98 : ℚ) / 100 * env.maxTime)
      ≤ (98 : ℚ) / 100 * env.maxTime := by
    have h1 : (0 : ℚ) ≤ (98 : ℚ) / 100 * env.maxTime := by positivity
    nlinarith
  constructor
  · induction evs generalizing st with
    | nil => intro t ht; simp [phaseBLoop] at ht
    | cons ev evs ih =>
      intro t ht
      by_cases hg : st.t < (98 : ℚ) / 100 * ((98 : ℚ) / 100 * env.maxTime)
      · simp only [phaseBLoop, if_pos hg] at ht
        rcases List.mem_cons.mp ht with h1 | h2
        · subst h1; exact lt_of_lt_of_le hg hbound
        · exact ih _ t h2
      · simp [phaseBLoop, if_neg hg] at ht
  · intro hg
    cases evs with
    | nil => rfl
    | cons ev evs => simp [phaseBLoop, if_neg hg]

/-- Witness for C4: with a zero budget the guard fails at the very top, so
the loop consumes no event and records no iteration entry. -/
theorem drrtStar_phaseB_deadline_witness :
    phaseBLoop exEnvZero 0 ((98 : ℚ) / 100 * ((98 : ℚ) / 100 * exEnvZero.maxTime)) exB4
      [{ rewired := none, tNext := 5 }] = (exB4, []) :=
  (drrtStar_phaseB_deadline exEnvZero 0 exB4 [{ rewired := none, tNext := 5 }]
    (by simp [exEnvZero])).2 (by simp [exEnvZero, exB4])

/-- C9: when the planning-scene service call fails, the MARSHA collision
check cycle sets the stop flag and exits the loop at once: the committed
scene, the published scene message, the shared obstacle positions and the
path costs are all untouched for that cycle, and no further cycle runs. -/
theorem marsha_ccThread_service_failure (ua : List String) (sc : SceneState)
    (ps : Option (List CObj)) (op : List (ℚ × ℚ × ℚ)) (pc : List Cost)
    (ng : Bool) (costs : List Cost) (rest : List CCInput) :
    ccCycle ua
        { stop := false, scene := sc, publishedScene := ps
          obstaclePositions := op, pathCosts := pc }
        { svc := none, nearGoal := ng, newCosts := costs }
      = ({ stop := true, scene := sc, publishedScene := ps
           obstaclePositions := op, pathCosts := pc }, false)
    ∧ ccLoop ua
        { stop := false, scene := sc, publishedScene := ps
          obstaclePositions := op, pathCosts := pc }
        ({ svc := none, nearGoal := ng, newCosts := costs } :: rest)
      = { stop := true, scene := sc, publishedScene := ps
          obstaclePositions := op, pathCosts := pc } := by
  exact ⟨rfl, rfl⟩

/-- C5: in a phase B iteration whose external rewire produced a fresh node,
the replanning goal is reconnected exactly when the three conditions hold:
the fresh node is within maxDistance of the goal, the direct edge to the
goal passes the collision checker, and the total cost through the fresh node
improves on the best cost-to-goal found so far.  On acceptance the goal's
existing parent connections are removed before the single new connection is
added (so the goal ends with exactly that one parent connection), the best
cost is updated and success_ is recorded; otherwise the tree is exactly the
external rewire result and the best cost and success flag are untouched. -/
theorem drrtStar_phaseB_goal_reconnection (env : Env) (goalB : ℕ) (st : BState)
    (nn : ℕ) (tR : Tree) (tNext : ℚ) :
    (phaseBAccepts env goalB nn tR st.cost2goal →
      phaseBStep env goalB st { rewired := some (nn, tR), tNext := tNext }
        = { tree := addConn (removeParentConns tR goalB) (phaseBNewConn env goalB nn tR)
            cost2goal := ((env.mcost (cfgOf tR nn) (cfgOf tR goalB) : ℤ) : Cost)
              + costToNode tR nn
            success := true
            t := tNext }
      ∧ parentConns (addConn (removeParentConns tR goalB) (phaseBNewConn env goalB nn tR)) goalB
          = [phaseBNewConn env goalB nn tR])
    ∧ (¬ phaseBAccepts env goalB nn tR st.cost2goal →
        (phaseBStep env goalB st { rewired := some (nn, tR), tNext := tNext }).tree = tR
        ∧ (phaseBStep env goalB st { rewired := some (nn, tR), tNext := tNext }).cost2goal
            = st.cost2goal
        ∧ (phaseBStep env goalB st { rewired := some (nn, tR), tNext := tNext }).success
            = st.success) := by
  constructor
  · rintro ⟨h1, h2, h3⟩
    have hnot : ¬ (|cfgOf tR nn - cfgOf tR goalB| > env.maxDistance) := not_lt.mpr h1
    constructor
    · simp only [phaseBStep, phaseBNewConn]
      rw [if_neg hnot, if_pos h2, if_pos h3]
    · simp only [parentConns, addConn, removeParentConns, phaseBNewConn,
        List.filter_append, List.filter_filter]
      simp
  · intro h
    by_cases h1 : |cfgOf tR nn - cfgOf tR goalB| > env.maxDistance
    · simp [phaseBStep, if_pos h1]
    · have h1' : |cfgOf tR nn - cfgOf tR goalB| ≤ env.maxDistance := not_lt.mp h1
      by_cases h2 : costToNode tR nn + ((|cfgOf tR nn - cfgOf tR goalB| : ℤ) : Cost)
          < st.cost2goal
      · have h3 : ¬ env.checkPath (cfgOf tR nn) (cfgOf tR goalB) = true :=
          fun h3 => h ⟨h1', h2, h3⟩
        simp [phaseBStep, if_neg h1, if_pos h2, h3]
      · simp [phaseBStep, if_neg h1, if_neg h2]

/-- Witness for C5: a concrete accepting iteration, showing the conditions
are satisfiable and the goal ends with exactly the new parent connection. -/
theorem drrtStar_phaseB_goal_reconnection_witness :
    phaseBAccepts exEnv 2 3 exTR5 exB5.cost2goal
    ∧ parentConns (addConn (removeParentConns exTR5 2) (phaseBNewConn exEnv 2 3 exTR5)) 2
        = [phaseBNewConn exEnv 2 3 exTR5] :=
  ⟨by decide, ((drrtStar_phaseB_goal_reconnection exEnv 2 exB5 3 exTR5 7).1 (by decide)).2⟩

/-- The C++ membership test of updateObstaclesPositions (std find not below
end) succeeds exactly on identifiers absent from the list. -/
theorem findIdx_beq_length_le_iff (l : List String) (a : String) :
    l.length ≤ l.findIdx (fun s => s == a) ↔ a ∉ l := by
  induction l with
  | nil => simp
  | cons x xs ih =>
    simp only [List.findIdx_cons]
    by_cases hx : (x == a) = true
    · have hxa : x = a := by simpa using hx
      simp [hx, hxa]
    · simp only [hx, cond_false, List.length_cons, Nat.succ_le_succ_iff, ih,
        List.mem_cons]
      have hxa : ¬ a = x := fun hc => hx (by simp [hc])
      simp [hxa]

/-- C7: updateObstaclesPositions returns exactly the positions of the
collision objects whose identifier is not in the unaware-obstacles list, in
world order; the scene-update step of the collision-check cycle hands the
full world (unaware obstacles included) to the collision checkers while the
SSM receives only those filtered positions. -/
theorem marsha_updateObstaclesPositions_filters (world : List CObj) (ua : List String) :
    updateObstaclesPositions world ua
      = (world.filter (fun o => decide (o.id ∉ ua))).map CObj.pos
    ∧ sceneUpdateStep world ua
      = { checkerScene := world
          ssmPositions := (world.filter (fun o => decide (o.id ∉ ua))).map CObj.pos } := by
  have key : ∀ (w : List CObj) (acc : List (ℚ × ℚ × ℚ)),
      w.foldl
        (fun acc obj =>
          if ua.length ≤ ua.findIdx (fun s => s == obj.id) then acc ++ [obj.pos] else acc)
        acc
        = acc ++ (w.filter (fun o => decide (o.id ∉ ua))).map CObj.pos := by
    intro w
    induction w with
    | nil => intro acc; simp
    | cons o ws ih =>
      intro acc
      by_cases h : o.id ∈ ua
      · have hc : ¬ ua.length ≤ ua.findIdx (fun s => s == o.id) := by
          rw [findIdx_beq_length_le_iff]; simpa
        simp only [List.foldl_cons, if_neg hc, ih, List.filter_cons]
        simp [h]
      · have hc : ua.length ≤ ua.findIdx (fun s => s == o.id) :=
          (findIdx_beq_length_le_iff ua o.id).mpr h
        simp only [List.foldl_cons, if_pos hc, ih, List.filter_cons]
        simp [h]
  have h1 : updateObstaclesPositions world ua
      = (world.filter (fun o => decide (o.id ∉ ua))).map CObj.pos := by
    have := key world []
    simpa [updateObstaclesPositions] using this
  exact ⟨h1, by simp [sceneUpdateStep, h1]⟩

/-- C8: initReplanner with a non-null metrics handle leaves the manager and
the constructed replanner with full_net_search off whatever the configured
value, and emits the warning exactly when full net search was requested. -/
theorem marsha_initReplanner_forces_full_net_search_off (m : MarshaManager) (h : ℕ)
    (hm : m.haMetrics = some h) :
    (initReplanner m).toOption.map (fun x => x.1.fullNetSearch) = some false
    ∧ (initReplanner m).toOption.map (fun x => x.2.1.fullNetSearch) = some false
    ∧ ((initReplanner m).toOption.map (fun x => x.2.2) = some []
        ↔ m.fullNetSearch = false) := by
  unfold initReplanner
  rw [hm]
  refine ⟨rfl, rfl, ?_⟩
  cases hfn : m.fullNetSearch <;> simp [hfn, Except.toOption]

/-- Witness for C8: a manager configured with full net search on still gets
both flags forced off. -/
theorem marsha_initReplanner_forces_full_net_search_off_witness :
    (initReplanner exM8).toOption.map (fun x => x.1.fullNetSearch) = some false
    ∧ (initReplanner exM8).toOption.map (fun x => x.2.1.fullNetSearch) = some false :=
  ⟨(marsha_initReplanner_forces_full_net_search_off exM8 7 rfl).1,
   (marsha_initReplanner_forces_full_net_search_off exM8 7 rfl).2.1⟩

/-- C10: initReplanner throws the runtime error exactly when the human-aware
metrics handle is null, and with a non-null handle it constructs the MARSHA
replanner with deadline 0.9 times dt_replan. -/
theorem marsha_initReplanner_null_metrics (m : MarshaManager) :
    (initReplanner m = Except.error "HA metrics not defined!" ↔ m.haMetrics = none)
    ∧ (∀ h, m.haMetrics = some h →
        (initReplanner m).toOption.map (fun x => x.2.1.deadline)
          = some ((9 : ℚ) / 10 * m.dtReplan)) := by
  constructor
  · cases hm : m.haMetrics with
    | none => simp [initReplanner, hm]
    | some h => simp [initReplanner, hm]
  · intro h hm
    simp [initReplanner, hm, Except.toOption]

/-- Witness for C10: the null handle raises the error; a non-null handle
yields the 0.9 dt_replan deadline. -/
theorem marsha_initReplanner_null_metrics_witness :
    initReplanner exM10 = Except.error "HA metrics not defined!"
    ∧ (initReplanner exM8).toOption.map (fun x => x.2.1.deadline)
        = some ((9 : ℚ) / 10 * exM8.dtReplan) :=
  ⟨(marsha_initReplanner_null_metrics exM10).1.mpr rfl,
   (marsha_initReplanner_null_metrics exM8).2 7 rfl⟩

/-- A successful changeRoot places the root at the requested node and keeps
the configuration table. -/
theorem changeRoot_some (t : Tree) (n : ℕ) (t2 : Tree) (h : changeRoot t n = some t2) :
    t2.root = n ∧ t2.cfgs = t.cfgs := by
  unfold changeRoot at h
  cases hc : chainToRoot t (t.conns.length + 1) n with
  | none => rw [hc] at h; cases h
  | some chain =>
    rw [hc] at h
    simp only [Option.map_some'] at h
    cases h
    exact ⟨rfl, rfl⟩

/-- Extending a chain by one connection starting at its endpoint. -/
theorem isChain_append_singleton (xs : List Conn) (c : Conn) (a : ℕ)
    (h : isChain xs a c.parent = true) : isChain (xs ++ [c]) a c.child = true := by
  induction xs generalizing a with
  | nil =>
    simp only [isChain, beq_iff_eq] at h
    simp [isChain, h]
  | cons x xs ih =>
    simp only [List.cons_append, isChain, Bool.and_eq_true, beq_iff_eq] at h ⊢
    exact ⟨h.1, ih _ h.2⟩

/-- The parent chain collected by chainToRoot, reversed, is a chain from the
root down to the node. -/
theorem chainToRoot_isChain (t : Tree) :
    ∀ fuel n l, chainToRoot t fuel n = some l → isChain l.reverse t.root n = true := by
  intro fuel
  induction fuel with
  | zero => intro n l h; simp [chainToRoot] at h
  | succ f ih =>
    intro n l h
    simp only [chainToRoot] at h
    by_cases hn : n = t.root
    · rw [if_pos hn] at h
      cases h
      simp [isChain, hn]
    · rw [if_neg hn] at h
      split at h
      · cases h
      · rename_i c hf
        cases hc : chainToRoot t f c.parent with
        | none => rw [hc] at h; cases h
        | some l2 =>
          rw [hc] at h
          simp only [Option.map_some'] at h
          cases h
          have hchild : c.child = n := by
            have := List.find?_some hf
            simpa using this
          have hstep := isChain_append_singleton l2.reverse c t.root (ih c.parent l2 hc)
          rw [hchild] at hstep
          simpa [List.reverse_cons] using hstep

/-- C3 counterexample: the DRRT star hot swap does not work on a clone of
the replanned tree and does not locate the edge on the replanned path: on a
state whose current and replanned paths differ, it mutates the current path
(splitting the current-path edge containing the configuration) and the
shared tree, while the spec-modelled clone-based hot swap leaves both
untouched and splits a different edge, producing a different executing
path. -/
theorem drrtStar_manager_hot_swap_mutates_shared_tree :
    ((startReplannedPathFromNewCurrentConf exM3 3).toOption.map (fun m => m.current))
      ≠ some exM3.current
    ∧ ((startReplannedPathFromNewCurrentConf exM3 3).toOption.map (fun m => m.tree))
      ≠ some exM3.tree
    ∧ ((hotSwapSpec exM3 3).toOption.map (fun p => p.1.current)) = some exM3.current
    ∧ ((hotSwapSpec exM3 3).toOption.map (fun p => p.1.replanned))
      ≠ ((startReplannedPathFromNewCurrentConf exM3 3).toOption.map (fun m => m.replanned)) := by
  refine ⟨by decide, by decide, by decide, by decide⟩

/-- C3 (amended): the DRRT star hot swap works directly on the tree of the
current path (shared with the replanned path, no clone): it locates the edge
of the CURRENT path containing the configuration, splits it inserting a node
at the configuration, reroots that tree at the new node, and replaces the
executing path's connections with the tree's root-to-goal chain. -/
theorem drrtStar_manager_hot_swap (m : MState) (conf : ℤ) (i : ℕ) (conn : Conn)
    (h1 : findConnection m.tree m.current conf = some (i, conn))
    (h2 : (changeRoot (splitConnAt m.tree m.current i conn conf m.freshId).1 m.freshId).isSome
        = true) :
    ∃ m2, startReplannedPathFromNewCurrentConf m conf = Except.ok m2
      ∧ m2.tree.root = m.freshId
      ∧ cfgOf m2.tree m.freshId = conf
      ∧ m2.current.conns
          = m.current.conns.take i
            ++ [{ parent := conn.parent, child := m.freshId, cost := conn.cost },
                { parent := m.freshId, child := conn.child, cost := conn.cost }]
            ++ m.current.conns.drop (i + 1)
      ∧ m2.replanned.conns = (getConnectionToNode m2.tree m.goal).getD []
      ∧ (∀ cs, getConnectionToNode m2.tree m.goal = some cs →
          isChain cs m2.tree.root m.goal = true) := by
  obtain ⟨t2, ht2⟩ := Option.isSome_iff_exists.mp h2
  refine ⟨{ m with
      current := (splitConnAt m.tree m.current i conn conf m.freshId).2
      tree := t2
      replanned := { conns := (getConnectionToNode t2 m.goal).getD [] }
      freshId := m.freshId + 1 }, ?_, ?_, ?_, ?_, rfl, ?_⟩
  · unfold startReplannedPathFromNewCurrentConf
    rw [h1]
    simp [ht2]
  · exact (changeRoot_some _ _ _ ht2).1
  · have hcfgs : t2.cfgs = (m.freshId, conf) :: m.tree.cfgs := by
      rw [(changeRoot_some _ _ _ ht2).2]
      rfl
    simp [cfgOf, hcfgs]
  · rfl
  · intro cs hcs
    unfold getConnectionToNode at hcs
    cases hc : chainToRoot t2 (t2.conns.length + 1) m.goal with
    | none => rw [hc] at hcs; cases hcs
    | some l =>
      rw [hc] at hcs
      simp only [Option.map_some', Option.some_inj] at hcs
      subst hcs
      exact chainToRoot_isChain t2 _ m.goal l hc

/-- Witness for C3: on the concrete manager state, the hot swap succeeds and
reroots the shared tree at the freshly inserted node. -/
theorem drrtStar_manager_hot_swap_witness :
    (startReplannedPathFromNewCurrentConf exM3 3).toOption.map (fun m => m.tree.root)
      = some exM3.freshId := by
  obtain ⟨m2, he, hroot, hcfg, hcur, hrep, hch⟩ := drrtStar_manager_hot_swap exM3 3 0
    { parent := 0, child := 1, cost := ((1 : ℤ) : Cost) } (by decide) (by decide)
  rw [he]
  simp [Except.toOption, hroot]

/-- Membership in the node list of a tree. -/
theorem mem_treeNodes_iff (t : Tree) (x : ℕ) :
    x ∈ treeNodes t ↔ x = t.root ∨ ∃ c ∈ t.conns, c.parent = x ∨ c.child = x := by
  have key : ∀ (l : List Conn),
      x ∈ l.foldr (fun c acc => c.parent :: c.child :: acc) []
        ↔ ∃ c ∈ l, c.parent = x ∨ c.child = x := by
    intro l
    induction l with
    | nil => simp
    | cons c cs ih =>
      simp only [List.foldr_cons, List.mem_cons, ih]
      constructor
      · rintro (h | h | ⟨d, hd, hor⟩)
        · exact ⟨c, Or.inl rfl, Or.inl h.symm⟩
        · exact ⟨c, Or.inl rfl, Or.inr h.symm⟩
        · exact ⟨d, Or.inr hd, hor⟩
      · rintro ⟨d, hdc | hd2, hor⟩
        · subst hdc
          rcases hor with h | h
          · exact Or.inl h.symm
          · exact Or.inr (Or.inl h.symm)
        · exact Or.inr (Or.inr ⟨d, hd2, hor⟩)
  unfold treeNodes
  simp only [List.mem_cons, key]

/-- A successful removeNodeFromPath really removes the node from the tree
(when the node is not the root) and keeps the root. -/
theorem removeNode_not_mem (t : Tree) (p : DPath) (n : ℕ) (tp : Tree × DPath)
    (h : removeNodeFromPath t p n = some tp) (hroot : t.root ≠ n) :
    n ∉ treeNodes tp.1 ∧ tp.1.root = t.root := by
  unfold removeNodeFromPath at h
  split at h
  · rename_i cp cc hpc hcc
    split at h
    · cases h
    · rename_i hguard
      cases h
      refine ⟨?_, rfl⟩
      rw [mem_treeNodes_iff]
      push_neg
      refine ⟨fun hc => hroot hc.symm, ?_⟩
      intro c hc
      rcases List.mem_append.mp hc with hcf | hcm
      · have hmem := List.mem_filter.mp hcf
        have hne : c ≠ cp ∧ c ≠ cc := by
          have := hmem.2
          simp only [Bool.and_eq_true, decide_eq_true_eq] at this
          exact this
        constructor
        · intro hp
          have : c ∈ childConns t n := by
            unfold childConns
            exact List.mem_filter.mpr ⟨hmem.1, by simp [hp]⟩
          rw [hcc] at this
          exact hne.2 (by simpa using this)
        · intro hch
          have : c ∈ parentConns t n := by
            unfold parentConns
            exact List.mem_filter.mpr ⟨hmem.1, by simp [hch]⟩
          rw [hpc] at this
          exact hne.1 (by simpa using this)
      · have hcm2 : c = { parent := cp.parent, child := cc.child, cost := cp.cost + cc.cost } := by
          simpa using hcm
        subst hcm2
        push_neg at hguard
        exact ⟨hguard.1, hguard.2⟩
  · cases h

/-- C2: when replan has detected an obstruction, inserted the node at the
current configuration and rewireBehindObs did not succeed, replan restores
the tree's original root, keeps success_ false, and removes the inserted
node exactly when it is unreferenced: on removal it returns false (path
reported unchanged) with the node gone from the tree, otherwise it returns
true (path reported changed). -/
theorem drrtStar_replan_failure_rollback (env : Env) (st : RState) (evs : List BEvent)
    (i : ℕ) (conn : Conn)
    (h1 : getCostFromConf st.tree st.path st.conf = ⊤)
    (h2 : findConnection st.tree st.path st.conf = some (i, conn))
    (h3 : (replanStage2 env st evs i conn).success = false)
    (h4 : (changeRoot (replanStage2 env st evs i conn).tree st.tree.root).isSome = true)
    (h5 : st.tree.root ≠ st.freshId) :
    ∃ b stF, replan env st evs = Except.ok (b, stF)
      ∧ stF.success = false
      ∧ stF.tree.root = st.tree.root
      ∧ (∀ tp, removeNodeFromPath
            ((changeRoot (replanStage2 env st evs i conn).tree st.tree.root).getD
              (replanStage2 env st evs i conn).tree)
            (replanStage2 env st evs i conn).path st.freshId = some tp →
          b = false ∧ st.freshId ∉ treeNodes stF.tree)
      ∧ (removeNodeFromPath
            ((changeRoot (replanStage2 env st evs i conn).tree st.tree.root).getD
              (replanStage2 env st evs i conn).tree)
            (replanStage2 env st evs i conn).path st.freshId = none →
          b = true) := by
  obtain ⟨t, ht⟩ := Option.isSome_iff_exists.mp h4
  have hroot_t : t.root = st.tree.root := (changeRoot_some _ _ _ ht).1
  have hgetD : (changeRoot (replanStage2 env st evs i conn).tree st.tree.root).getD
      (replanStage2 env st evs i conn).tree = t := by rw [ht]; rfl
  cases hrem : removeNodeFromPath t (replanStage2 env st evs i conn).path st.freshId with
  | some tp =>
    have hrun : replan env st evs = Except.ok (false,
        { replanStage2 env st evs i conn with tree := tp.1, path := tp.2 }) := by
      unfold replan
      rw [if_pos h1, h2]
      simp only [h3, Bool.false_eq_true, if_false, ht, hrem]
    refine ⟨false, _, hrun, h3, ?_, ?_, ?_⟩
    · have := (removeNode_not_mem t (replanStage2 env st evs i conn).path st.freshId tp hrem
        (by rw [hroot_t]; exact h5)).2
      simpa [this] using hroot_t
    · intro tp2 htp2
      rw [hgetD] at htp2
      rw [hrem] at htp2
      cases htp2
      refine ⟨rfl, ?_⟩
      exact (removeNode_not_mem t _ st.freshId tp hrem (by rw [hroot_t]; exact h5)).1
    · intro hnone
      rw [hgetD, hrem] at hnone
      cases hnone
  | none =>
    have hrun : replan env st evs = Except.ok (true,
        { replanStage2 env st evs i conn with tree := t }) := by
      unfold replan
      rw [if_pos h1, h2]
      simp only [h3, Bool.false_eq_true, if_false, ht, hrem]
    refine ⟨true, _, hrun, h3, by simpa using hroot_t, ?_, fun _ => rfl⟩
    intro tp htp
    rw [hgetD, hrem] at htp
    cases htp

/-- Witness for C2: a concrete obstructed state on which rewireBehindObs
fails (no phase B events), the root is restored and the inserted node is
removed, replan returning false with success_ false. -/
theorem drrtStar_replan_failure_rollback_witness :
    (replan exEnv exSt2 []).toOption.map (fun r => (r.1, r.2.success, r.2.tree.root))
      = some (false, false, 0) := by
  obtain ⟨b, stF, he, hs, hr, hsome, hnone⟩ :=
    drrtStar_replan_failure_rollback exEnv exSt2 [] 0
      { parent := 0, child := 1, cost := ⊤ }
      (by decide) (by decide) (by decide) (by decide) (by decide)
  have hb := hsome
    ({ root := 0
       conns := [{ parent := 0, child := 1, cost := (⊤ : Cost) + (⊤ : Cost) }]
       cfgs := [(0, 0), (1, 2)] },
     { conns := [{ parent := 0, child := 1, cost := (⊤ : Cost) + (⊤ : Cost) }] })
    (by decide)
  rw [he]
  simp [Except.toOption, hb.1, hs, hr, exSt2]

end ReplanningStrategies
